import Mathlib

/-!
Verification development for the caliscope stereo-triangulation table
assemblers (`get_stereotriangulated_table.py`).

The two assembler functions `get_stereotriangulated_table_original` and
`get_stereotriangulated_table` are embedded from the source file
`caliscope/calibration/capture_volume/helper_functions/get_stereotriangulated_table.py`.
The collaborators they import (`PointPacket`, `FramePacket`, `SyncPacket`,
`StereoPointsBuilder.get_synched_paired_points`,
`ArrayStereoTriangulator.triangulate_synched_points`,
`StereoPointsPacket.to_table`) are not part of the sources under
verification; their behaviour is modelled from the specification
(sections 3, 4.1, 4.2, 4.3).

Numeric image/board coordinates and timestamps are modelled as integers:
no claim under consideration depends on floating-point rounding, only on
equality of values carried through the pipeline.  Pandas DataFrames are
modelled as lists of records; file output is modelled by returning the
list of (path, table) write effects.
-/

namespace Caliscope

/-- One row of the input detection table (spec section 6: required columns
`sync_index`, `port`, `point_id`, `frame_time`, `frame_index`,
`img_loc_x`, `img_loc_y`, `obj_loc_x`, `obj_loc_y`). -/
structure Row where
  sync_index : Int
  port : Nat
  point_id : Int
  frame_time : Int
  frame_index : Int
  img_loc_x : Int
  img_loc_y : Int
  obj_loc_x : Int
  obj_loc_y : Int
deriving DecidableEq, Repr

/-- The input detection table: a list of rows in file order. -/
abbrev Table := List Row

/-- Modelled from the spec (section 3, Point Set): parallel arrays of
point identifier, image location and board location for one camera at one
synchronized instant.  Mirrors `PointPacket` of `caliscope.packets`,
which is not among the sources under verification. -/
structure PointPacket where
  point_id : List Int
  img_loc : List (Int × Int)
  obj_loc : List (Int × Int)
deriving DecidableEq, Repr

/-- Modelled from the spec (section 3, Frame Snapshot): one camera's
observation at one synchronized instant.  Mirrors `FramePacket` of
`caliscope.packets` (the optional raw image is always `None` in both
assemblers and is omitted). -/
structure FramePacket where
  port : Nat
  frame_index : Int
  frame_time : Int
  points : PointPacket
deriving DecidableEq, Repr

/-- Modelled from the spec (section 3, Sync Bundle): a synchronization
index plus a mapping from every known camera identifier to its frame
packet or `none`.  The mapping is an association list in port order,
mirroring the `frame_packets` dict built by both assemblers. -/
structure SyncPacket where
  sync_index : Int
  frame_packets : List (Nat × Option FramePacket)
deriving DecidableEq, Repr

/-- The camera array as consumed by the assemblers: the ordered list of
ports (`camera_array.port_index.keys()`), and the geometric-calibration
capability (spec section 6: a camera pair either has a usable stereo
relationship or an explicit unavailable result; the triangulation map is
kept abstract as a function of the pair and the two image locations). -/
structure CameraArray where
  ports : List Nat
  geoAvail : Nat → Nat → Bool
  tri : Nat → Nat → Int × Int → Int × Int → Int × Int × Int

/-- Modelled from the spec (section 3, Camera Pair Correspondence): for
one camera pair at one sync index, the shared point identifiers with the
two cameras' image coordinates aligned by identifier.  Mirrors
`StereoPointsPacket` of `caliscope.triangulate.stereo_points_builder`. -/
structure StereoPointsPacket where
  sync_index : Int
  portA : Nat
  portB : Nat
  point_id : List Int
  locA : List (Int × Int)
  locB : List (Int × Int)
deriving DecidableEq, Repr

/-- One row of the output table (spec section 6: camera-pair identifiers,
`sync_index`, `point_id`, triangulated coordinate). -/
structure OutRow where
  port_A : Nat
  port_B : Nat
  sync_index : Int
  point_id : Int
  x : Int
  y : Int
  z : Int
deriving DecidableEq, Repr

/-- Selection `point_data[point_data["sync_index"] == s]`: rows of one sync group. -/
def syncGroupRows (t : Table) (s : Int) : Table :=
  t.filter (fun r => r.sync_index == s)

/-- Selection `port_points[port_points["port"] == p]`: rows of one port. -/
def portRows (t : Table) (p : Nat) : Table :=
  t.filter (fun r => r.port == p)

/-- The `PointPacket(point_id, img_loc, obj_loc)` built from a slice of
the table: the three columns extracted as parallel arrays. -/
def pointPacketOfRows (rows : Table) : PointPacket :=
  { point_id := rows.map (·.point_id)
    img_loc := rows.map (fun r => (r.img_loc_x, r.img_loc_y))
    obj_loc := rows.map (fun r => (r.obj_loc_x, r.obj_loc_y)) }

/-- Frame packet construction of the per-bundle assembler (source lines
93-119): `None` when the port has no rows, otherwise `frame_time` and
`frame_index` from the port's first row (`iloc[0]`). -/
def framePacketOfRows (port : Nat) : Table → Option FramePacket
  | [] => none
  | r :: rs =>
    some { port := port
           frame_index := r.frame_index
           frame_time := r.frame_time
           points := pointPacketOfRows (r :: rs) }

/-- Frame packet construction of the batched assembler (source lines
189-213): `None` when the port has no rows, otherwise `frame_index`
hard-coded to `0` and `frame_time` from the port's first row. -/
def framePacketOfRowsBatched (port : Nat) : Table → Option FramePacket
  | [] => none
  | r :: rs =>
    some { port := port
           frame_index := 0
           frame_time := r.frame_time
           points := pointPacketOfRows (r :: rs) }

/-- The `frame_packets` dict of the per-bundle assembler: one entry per
port of the camera array, in port order. -/
def framePacketsFor (ports : List Nat) (t : Table) : List (Nat × Option FramePacket) :=
  ports.map (fun p => (p, framePacketOfRows p (portRows t p)))

/-- The `frame_packets` dict of the batched assembler. -/
def framePacketsForBatched (ports : List Nat) (t : Table) : List (Nat × Option FramePacket) :=
  ports.map (fun p => (p, framePacketOfRowsBatched p (portRows t p)))

/-- The `SyncPacket(sync_index, frame_packets)` of the per-bundle assembler
at one sync index. -/
def syncPacketAt (ports : List Nat) (t : Table) (s : Int) : SyncPacket :=
  { sync_index := s, frame_packets := framePacketsFor ports (syncGroupRows t s) }

/-- Modelled from the spec (section 4.1): the fixed, stable enumeration
of unordered pairs of distinct camera identifiers used by
`StereoPointsBuilder`. -/
def pairsOf : List Nat → List (Nat × Nat)
  | [] => []
  | p :: rest => rest.map (fun q => (p, q)) ++ pairsOf rest

/-- Lookup in the `frame_packets` association list; a missing entry and
an entry holding `None` both yield `none`. -/
def lookupFP (fps : List (Nat × Option FramePacket)) (a : Nat) : Option FramePacket :=
  match fps.find? (fun e => e.1 == a) with
  | some e => e.2
  | none => none

/-- The image coordinate a point packet holds for a given identifier:
the coordinate at the first array position carrying that identifier. -/
def lookupImgLoc (pkt : PointPacket) (id : Int) : Option (Int × Int) :=
  ((pkt.point_id.zip pkt.img_loc).find? (fun e => e.1 == id)).map (·.2)

/-- Modelled from the spec (section 4.1): the intersection of the point
identifiers of two point packets, in first-packet order. -/
def commonIds (fa fb : PointPacket) : List Int :=
  fa.point_id.filter (fun id => fb.point_id.contains id)

/-- Modelled from the spec (section 4.1): the Camera Pair Correspondence
for one pair — `none` if either camera lacks a frame packet, otherwise
the intersection of point identifiers with image coordinates gathered
from each side aligned by identifier; `none` again when the intersection
is empty.  Mirrors `StereoPointsBuilder.get_synched_paired_points`
restricted to one pair; that class is not among the sources under
verification. -/
def pairedPoints (sync_index : Int) (fps : List (Nat × Option FramePacket)) (a b : Nat) :
    Option StereoPointsPacket :=
  match lookupFP fps a, lookupFP fps b with
  | some fa, some fb =>
    if (commonIds fa.points fb.points).isEmpty then none
    else
      some { sync_index := sync_index
             portA := a
             portB := b
             point_id := commonIds fa.points fb.points
             locA := (commonIds fa.points fb.points).map
               (fun id => (lookupImgLoc fa.points id).getD (0, 0))
             locB := (commonIds fa.points fb.points).map
               (fun id => (lookupImgLoc fb.points id).getD (0, 0)) }
  | _, _ => none

/-- Modelled from the spec (sections 4.1 and 4.2): the per-pair stereo
points packets of one sync packet after the triangulation pass.  The
builder yields `none` for a pair with an absent side or empty
intersection; the triangulator marks a pair with unavailable geometry
wholly un-triangulatable (it contributes zero rows, spec section 4.2
failure policy).  Mirrors `synched_stereo_points.stereo_points_packets`
after `ArrayStereoTriangulator.triangulate_synched_points`. -/
def stereoPacketsAfterTri (ca : CameraArray) (sync : SyncPacket) :
    List ((Nat × Nat) × Option StereoPointsPacket) :=
  (pairsOf ca.ports).map (fun ab =>
    (ab,
      match pairedPoints sync.sync_index sync.frame_packets ab.1 ab.2 with
      | some sp => if ca.geoAvail ab.1 ab.2 then some sp else none
      | none => none))

/-- Modelled from the spec (sections 3 and 6): `StereoPointsPacket.to_table`
— one output row per matched identifier, carrying the pair, the packet's
sync index, the identifier and the triangulated coordinate. -/
def toTable (ca : CameraArray) (sp : StereoPointsPacket) : List OutRow :=
  (sp.point_id.zip (sp.locA.zip sp.locB)).map (fun e =>
    { port_A := sp.portA
      port_B := sp.portB
      sync_index := sp.sync_index
      point_id := e.1
      x := (ca.tri sp.portA sp.portB e.2.1 e.2.2).1
      y := (ca.tri sp.portA sp.portB e.2.1 e.2.2).2.1
      z := (ca.tri sp.portA sp.portB e.2.1 e.2.2).2.2 })

/-- The rows one pair entry contributes to the accumulator: nothing for
a `None` packet (the assembler's `if triangulated_pair is not None`
skip), `to_table` otherwise. -/
def entryRows (ca : CameraArray) (e : (Nat × Nat) × Option StereoPointsPacket) : List OutRow :=
  match e.2 with
  | none => []
  | some sp => toTable ca sp

/-- The accumulation loop over pairs shared by both assemblers (source
lines 129-137 and 225-233): the accumulator is `None` until the first
non-null pair, then grows by `extend`. -/
def accumulatePairs (ca : CameraArray) (entries : List ((Nat × Nat) × Option StereoPointsPacket))
    (acc : Option (List OutRow)) : Option (List OutRow) :=
  entries.foldl
    (fun acc e =>
      match e.2 with
      | none => acc
      | some sp =>
        match acc with
        | none => some (toTable ca sp)
        | some rows => some (rows ++ toTable ca sp))
    acc

/-- Insertion into a sorted list of integers. -/
def insertSorted (x : Int) : List Int → List Int
  | [] => [x]
  | y :: ys => if x ≤ y then x :: y :: ys else y :: insertSorted x ys

/-- Insertion sort on integers. -/
def sortInts (l : List Int) : List Int :=
  l.foldr insertSorted []

/-- Like `np.unique`: the sorted list of distinct values of a column. -/
def uniqueSorted (l : List Int) : List Int :=
  sortInts l.dedup

/-- The sync packets the per-bundle assembler constructs: one per
distinct sync index of the input, in `np.unique` order.  The builder and
the triangulator are invoked once per element of this list. -/
def originalSyncPackets (ca : CameraArray) (t : Table) : List SyncPacket :=
  (uniqueSorted (t.map (·.sync_index))).map (syncPacketAt ca.ports t)

/-- The largest `point_id` of the input table (`point_data["point_id"].max()`;
the value is irrelevant for an empty table, where the batched run fails
before using it). -/
def maxPointId : Table → Int
  | [] => 0
  | r :: rs => rs.foldl (fun m q => max m q.point_id) r.point_id

/-- The combined identifier of the batched assembler (source line 177):
`sync_index * point_id_multiplier + point_id`. -/
def encodePointId (m s p : Int) : Int :=
  s * m + p

/-- Recovery of the sync index (source line 239): floor division, the
semantics of both python `//` and pandas integer division. -/
def decodeSyncIndex (m e : Int) : Int :=
  Int.fdiv e m

/-- Recovery of the point identifier (source line 240): floor remainder,
the semantics of python `%`. -/
def decodePointId (m e : Int) : Int :=
  Int.fmod e m

/-- The identifier remapping of one input row (source lines 177-180):
the combined identifier replaces `point_id` and `sync_index` is forced
to `0`. -/
def encodeRow (m : Int) (r : Row) : Row :=
  { r with point_id := encodePointId m r.sync_index r.point_id, sync_index := 0 }

/-- The remapped table the batched assembler operates on. -/
def remap (m : Int) (t : Table) : Table :=
  t.map (encodeRow m)

/-- The single virtual sync packet of the batched assembler
(`SyncPacket(0, frame_packets)`, source line 216), as a one-element list:
the builder and the triangulator are invoked once per element. -/
def batchedSyncPackets (ca : CameraArray) (t : Table) : List SyncPacket :=
  [{ sync_index := 0
     frame_packets := framePacketsForBatched ca.ports (remap (maxPointId t + 1) t) }]

/-- The per-bundle assembler's accumulator after the loop over sync
indices: builder, triangulator and pair accumulation applied to each
sync packet in turn. -/
def originalRun (ca : CameraArray) (t : Table) : Option (List OutRow) :=
  (originalSyncPackets ca t).foldl
    (fun acc sp => accumulatePairs ca (stereoPacketsAfterTri ca sp) acc)
    none

/-- The batched assembler's accumulator: builder, triangulator and pair
accumulation applied to the single virtual sync packet. -/
def batchedRun (ca : CameraArray) (t : Table) : Option (List OutRow) :=
  (batchedSyncPackets ca t).foldl
    (fun acc sp => accumulatePairs ca (stereoPacketsAfterTri ca sp) acc)
    none

/-- The decoding of one output row (source lines 239-244): the combined
identifier is decomposed to recover `sync_index` and `point_id`. -/
def decodeRow (m : Int) (r : OutRow) : OutRow :=
  { r with sync_index := decodeSyncIndex m r.point_id
           point_id := decodePointId m r.point_id }

/-- The name of the persisted output file. -/
def outName : String :=
  "stereotriangulated_points.csv"

/-- The per-bundle assembler `get_stereotriangulated_table_original`:
returns the output table together with the list of file writes it
performs.  `pd.DataFrame(None)` is the empty table, so a `None`
accumulator is returned and written as an empty table. -/
def get_stereotriangulated_table_original (ca : CameraArray) (path : List String) (t : Table) :
    List OutRow × List (List String × List OutRow) :=
  let df := (originalRun ca t).getD []
  (df, [(path.dropLast ++ [outName], df)])

/-- The batched assembler `get_stereotriangulated_table`: when the
accumulator is still `None` after the pair loop, `pd.DataFrame(None)` is
an empty frame with no columns and indexing its `point_id` column raises
`KeyError`; otherwise every row is decoded, written and returned. -/
def get_stereotriangulated_table (ca : CameraArray) (path : List String) (t : Table) :
    Except String (List OutRow × List (List String × List OutRow)) :=
  let m := maxPointId t + 1
  match batchedRun ca t with
  | none => Except.error "KeyError: point_id"
  | some rows =>
    let decoded := rows.map (decodeRow m)
    Except.ok (decoded, [(path.dropLast ++ [outName], decoded)])

/-- A concrete two-camera array used by witnesses and counterexamples:
geometry available for every pair, triangulation summing the two image
coordinates. -/
def camX : CameraArray :=
  ⟨[0, 1], fun _ _ => true, fun _ _ la lb => (la.1 + lb.1, la.2 + lb.2, 0)⟩

/-- A concrete input path used by witnesses and counterexamples. -/
def pathX : List String :=
  ["data", "points.csv"]

/-- Two cameras sharing point 5 at sync index 0. -/
def tShared : Table :=
  [⟨0, 0, 5, 10, 2, 1, 2, 0, 0⟩, ⟨0, 1, 5, 11, 3, 3, 4, 0, 0⟩]

/-- Two cameras with disjoint point identifiers: no pair ever matches. -/
def tDisjoint : Table :=
  [⟨0, 0, 7, 10, 2, 1, 2, 0, 0⟩, ⟨0, 1, 8, 11, 3, 3, 4, 0, 0⟩]

/-- Two cameras with disjoint point identifiers at distinct sync
indices: again no pair ever matches. -/
def tDisjointB : Table :=
  [⟨2, 0, 3, 20, 4, 5, 6, 0, 0⟩, ⟨3, 1, 4, 21, 5, 7, 8, 0, 0⟩]

/-- A table with a negative point identifier: the combined identifiers of
its two rows collide, `0 * 3 + 2 = 1 * 3 + (-1)`. -/
def tCollide : Table :=
  [⟨0, 0, 2, 10, 2, 1, 2, 0, 0⟩, ⟨1, 1, -1, 11, 3, 3, 4, 0, 0⟩]

/-- The output row both pipelines build for identifier `id` of pair
`(a, b)` at sync index `s`, given the two point packets. -/
def outRowOf (ca : CameraArray) (a b : Nat) (s : Int) (fa fb : PointPacket) (id : Int) :
    OutRow :=
  { port_A := a
    port_B := b
    sync_index := s
    point_id := id
    x := (ca.tri a b ((lookupImgLoc fa id).getD (0, 0)) ((lookupImgLoc fb id).getD (0, 0))).1
    y := (ca.tri a b ((lookupImgLoc fa id).getD (0, 0)) ((lookupImgLoc fb id).getD (0, 0))).2.1
    z := (ca.tri a b ((lookupImgLoc fa id).getD (0, 0)) ((lookupImgLoc fb id).getD (0, 0))).2.2 }

/-- The table holds a detection of identifier `id` by port `p` at sync
index `s`. -/
def hasDet (t : Table) (p : Nat) (s : Int) (id : Int) : Prop :=
  ∃ r ∈ t, r.port = p ∧ r.sync_index = s ∧ r.point_id = id

/-- The image coordinate of the first row of the table carrying port
`p`, sync index `s` and identifier `id` (the coordinate both pipelines
select for that detection). -/
def imgAt (t : Table) (p : Nat) (s : Int) (id : Int) : Int × Int :=
  ((t.find? (fun r => r.port == p && (r.sync_index == s && r.point_id == id))).map
    (fun r => (r.img_loc_x, r.img_loc_y))).getD (0, 0)

/-- The characterization shared by both pipelines: `row` is the
triangulation of an identifier detected by both cameras of an available
pair at some sync index. -/
def triRowSpec (ca : CameraArray) (t : Table) (row : OutRow) : Prop :=
  ∃ a b s id,
    (a, b) ∈ pairsOf ca.ports ∧ ca.geoAvail a b = true
    ∧ hasDet t a s id ∧ hasDet t b s id
    ∧ row =
      { port_A := a
        port_B := b
        sync_index := s
        point_id := id
        x := (ca.tri a b (imgAt t a s id) (imgAt t b s id)).1
        y := (ca.tri a b (imgAt t a s id) (imgAt t b s id)).2.1
        z := (ca.tri a b (imgAt t a s id) (imgAt t b s id)).2.2 }

/-! ### Arithmetic of the combined identifier -/

theorem fdiv_encodePointId (m s p : Int) (h0 : 0 ≤ p) (h1 : p < m) :
    Int.fdiv (encodePointId m s p) m = s := by
  have hm : 0 < m := lt_of_le_of_lt h0 h1
  have he : encodePointId m s p = p + m * s := by
    unfold encodePointId; ring
  rw [he, Int.fdiv_eq_ediv _ (le_of_lt hm),
    Int.add_mul_ediv_left _ _ (by omega : m ≠ 0),
    Int.ediv_eq_zero_of_lt h0 h1, Int.zero_add]

theorem fmod_encodePointId (m s p : Int) (h0 : 0 ≤ p) (h1 : p < m) :
    Int.fmod (encodePointId m s p) m = p := by
  have hm : 0 < m := lt_of_le_of_lt h0 h1
  have he : encodePointId m s p = p + m * s := by
    unfold encodePointId; ring
  rw [he, Int.fmod_eq_emod _ (le_of_lt hm), Int.add_mul_emod_self_left,
    Int.emod_eq_of_lt h0 h1]

theorem encodePointId_inj (m s1 p1 s2 p2 : Int) (h1 : 0 ≤ p1) (h1m : p1 < m)
    (h2 : 0 ≤ p2) (h2m : p2 < m)
    (he : encodePointId m s1 p1 = encodePointId m s2 p2) :
    s1 = s2 ∧ p1 = p2 := by
  have hs := fdiv_encodePointId m s1 p1 h1 h1m
  have hp := fmod_encodePointId m s1 p1 h1 h1m
  rw [he, fdiv_encodePointId m s2 p2 h2 h2m] at hs
  rw [he, fmod_encodePointId m s2 p2 h2 h2m] at hp
  exact ⟨hs.symm, hp.symm⟩

/-! ### Bounds from `maxPointId` -/

theorem foldl_max_le_init (rs : Table) (a : Int) :
    a ≤ rs.foldl (fun m q => max m q.point_id) a := by
  induction rs generalizing a with
  | nil => exact le_refl a
  | cons q qs ih => exact le_trans (le_max_left _ _) (ih (max a q.point_id))

theorem foldl_max_mem (rs : Table) (a : Int) (q : Row) (h : q ∈ rs) :
    q.point_id ≤ rs.foldl (fun m r => max m r.point_id) a := by
  induction rs generalizing a with
  | nil => cases h
  | cons x xs ih =>
    rcases List.mem_cons.mp h with h1 | h1
    · subst h1
      exact le_trans (le_max_right _ _) (foldl_max_le_init xs (max a q.point_id))
    · exact ih (max a x.point_id) h1

theorem le_maxPointId (t : Table) (r : Row) (h : r ∈ t) :
    r.point_id ≤ maxPointId t := by
  cases t with
  | nil => cases h
  | cons q qs =>
    unfold maxPointId
    rcases List.mem_cons.mp h with h1 | h1
    · subst h1; exact foldl_max_le_init qs r.point_id
    · exact foldl_max_mem qs q.point_id r h1

/-- C2: for every non-negative `sync_index` and every non-negative
`point_id` bounded by `max_point_id`, the batched mode's decomposition
by floor division and remainder against `max_point_id + 1` recovers the
original pair exactly. -/
theorem decode_encode_roundtrip (s p maxid : Int) (_hs : 0 ≤ s) (hp : 0 ≤ p)
    (hpm : p ≤ maxid) :
    decodeSyncIndex (maxid + 1) (encodePointId (maxid + 1) s p) = s ∧
    decodePointId (maxid + 1) (encodePointId (maxid + 1) s p) = p := by
  have h1 : p < maxid + 1 := by omega
  exact ⟨fdiv_encodePointId _ s p hp h1, fmod_encodePointId _ s p hp h1⟩

/-- Witness for C2 at `sync_index = 4`, `point_id = 3`, `max_point_id = 5`. -/
theorem decode_encode_roundtrip_witness :
    decodeSyncIndex 6 (encodePointId 6 4 3) = 4 ∧
    decodePointId 6 (encodePointId 6 4 3) = 3 :=
  decode_encode_roundtrip 4 3 5 (by decide) (by decide) (by decide)

/-- C8: when every `point_id` of the table is non-negative, the batched
mode's combined-identifier map with multiplier `maxPointId t + 1` is
injective on the rows of the table: rows whose combined identifiers
coincide agree on both `sync_index` and `point_id`. -/
theorem encoding_collision_free (t : Table) (h : ∀ r ∈ t, 0 ≤ r.point_id)
    (r1 : Row) (h1 : r1 ∈ t) (r2 : Row) (h2 : r2 ∈ t)
    (he : encodePointId (maxPointId t + 1) r1.sync_index r1.point_id
        = encodePointId (maxPointId t + 1) r2.sync_index r2.point_id) :
    r1.sync_index = r2.sync_index ∧ r1.point_id = r2.point_id := by
  refine encodePointId_inj (maxPointId t + 1) _ _ _ _ (h r1 h1) ?_ (h r2 h2) ?_ he
  · have := le_maxPointId t r1 h1; omega
  · have := le_maxPointId t r2 h2; omega

/-- Witness for C8: a two-row table with distinct identifiers. -/
theorem encoding_collision_free_witness :
    ((⟨0, 0, 2, 0, 0, 0, 0, 0, 0⟩ : Row).sync_index
        = (⟨0, 1, 2, 1, 1, 1, 1, 1, 1⟩ : Row).sync_index) ∧
    ((⟨0, 0, 2, 0, 0, 0, 0, 0, 0⟩ : Row).point_id
        = (⟨0, 1, 2, 1, 1, 1, 1, 1, 1⟩ : Row).point_id) :=
  encoding_collision_free
    [⟨0, 0, 2, 0, 0, 0, 0, 0, 0⟩, ⟨0, 1, 2, 1, 1, 1, 1, 1, 1⟩]
    (by decide)
    ⟨0, 0, 2, 0, 0, 0, 0, 0, 0⟩ (by decide)
    ⟨0, 1, 2, 1, 1, 1, 1, 1, 1⟩ (by decide)
    (by decide)

/-! ### The frame-packet association list -/

theorem find?_portEntry (f : Nat → Option FramePacket) (ports : List Nat) (p : Nat)
    (hp : p ∈ ports) :
    (ports.map (fun q => (q, f q))).find? (fun e => e.1 == p) = some (p, f p) := by
  induction ports with
  | nil => cases hp
  | cons q qs ih =>
    by_cases h : q = p
    · subst h
      simp only [List.map_cons]
      exact List.find?_cons_of_pos _ (by simp)
    · have hq : p ∈ qs := by
        rcases List.mem_cons.mp hp with h1 | h1
        · exact absurd h1.symm h
        · exact h1
      simp only [List.map_cons]
      rw [List.find?_cons_of_neg _ (by simp [h])]
      exact ih hq

theorem lookupFP_framePacketsFor (ports : List Nat) (t : Table) (p : Nat)
    (hp : p ∈ ports) :
    lookupFP (framePacketsFor ports t) p = framePacketOfRows p (portRows t p) := by
  unfold lookupFP framePacketsFor
  rw [find?_portEntry (fun q => framePacketOfRows q (portRows t q)) ports p hp]

theorem lookupFP_framePacketsForBatched (ports : List Nat) (t : Table) (p : Nat)
    (hp : p ∈ ports) :
    lookupFP (framePacketsForBatched ports t) p
      = framePacketOfRowsBatched p (portRows t p) := by
  unfold lookupFP framePacketsForBatched
  rw [find?_portEntry (fun q => framePacketOfRowsBatched q (portRows t q)) ports p hp]

/-- C5: every sync bundle constructed by either assembler has an entry in
its frame-packet mapping for every port of the camera array, and a port
with no rows in the relevant slice of the table maps to the explicit
absent value `none` rather than being omitted. -/
theorem sync_bundle_total_mapping (ca : CameraArray) (t : Table) (p : Nat)
    (hp : p ∈ ca.ports) :
    (∀ s : Int,
      (syncPacketAt ca.ports t s).frame_packets.find? (fun e => e.1 == p)
          = some (p, framePacketOfRows p (portRows (syncGroupRows t s) p))
        ∧ (portRows (syncGroupRows t s) p = [] →
            (syncPacketAt ca.ports t s).frame_packets.find? (fun e => e.1 == p)
              = some (p, none)))
    ∧ ∀ sp ∈ batchedSyncPackets ca t,
        sp.frame_packets.find? (fun e => e.1 == p)
            = some (p, framePacketOfRowsBatched p
                (portRows (remap (maxPointId t + 1) t) p))
          ∧ (portRows (remap (maxPointId t + 1) t) p = [] →
              sp.frame_packets.find? (fun e => e.1 == p) = some (p, none)) := by
  constructor
  · intro s
    have h := find?_portEntry
      (fun q => framePacketOfRows q (portRows (syncGroupRows t s) q)) ca.ports p hp
    refine ⟨by simpa [syncPacketAt, framePacketsFor] using h, fun hempty => ?_⟩
    have h0 : framePacketOfRows p (portRows (syncGroupRows t s) p) = none := by
      rw [hempty]; rfl
    simpa [syncPacketAt, framePacketsFor, h0] using h
  · intro sp hsp
    simp only [batchedSyncPackets, List.mem_singleton] at hsp
    subst hsp
    have h := find?_portEntry
      (fun q => framePacketOfRowsBatched q (portRows (remap (maxPointId t + 1) t) q))
      ca.ports p hp
    refine ⟨by simpa [framePacketsForBatched] using h, fun hempty => ?_⟩
    have h0 : framePacketOfRowsBatched p (portRows (remap (maxPointId t + 1) t) p) = none := by
      rw [hempty]; rfl
    simpa [framePacketsForBatched, h0] using h

/-- Witness for C5 at a concrete camera array and table. -/
theorem sync_bundle_total_mapping_witness :
    (∀ s : Int,
      (syncPacketAt (⟨[0, 1], fun _ _ => true, fun _ _ _ _ => (0, 0, 0)⟩ : CameraArray).ports
          [] s).frame_packets.find? (fun e => e.1 == 1)
          = some (1, framePacketOfRows 1 (portRows (syncGroupRows [] s) 1))
        ∧ (portRows (syncGroupRows [] s) 1 = [] →
            (syncPacketAt (⟨[0, 1], fun _ _ => true, fun _ _ _ _ => (0, 0, 0)⟩ : CameraArray).ports
                [] s).frame_packets.find? (fun e => e.1 == 1) = some (1, none)))
    ∧ ∀ sp ∈ batchedSyncPackets ⟨[0, 1], fun _ _ => true, fun _ _ _ _ => (0, 0, 0)⟩ [],
        sp.frame_packets.find? (fun e => e.1 == 1)
            = some (1, framePacketOfRowsBatched 1
                (portRows (remap (maxPointId [] + 1) []) 1))
          ∧ (portRows (remap (maxPointId [] + 1) []) 1 = [] →
              sp.frame_packets.find? (fun e => e.1 == 1) = some (1, none)) :=
  sync_bundle_total_mapping ⟨[0, 1], fun _ _ => true, fun _ _ _ _ => (0, 0, 0)⟩ [] 1
    (by decide)

/-- C4: the batched assembler constructs exactly one sync packet, that
packet carries the shared sync index `0`, every remapped row's sync
index is forced to `0`, and the whole run is the correspondence-builder
and triangulation pass applied once per element of that singleton packet
list. -/
theorem batched_single_pass (ca : CameraArray) (t : Table) :
    (batchedSyncPackets ca t).length = 1
    ∧ (∀ sp ∈ batchedSyncPackets ca t, sp.sync_index = 0)
    ∧ (∀ r ∈ remap (maxPointId t + 1) t, r.sync_index = 0)
    ∧ batchedRun ca t
        = (batchedSyncPackets ca t).foldl
            (fun acc sp => accumulatePairs ca (stereoPacketsAfterTri ca sp) acc)
            none := by
  refine ⟨rfl, ?_, ?_, rfl⟩
  · intro sp hsp
    simp only [batchedSyncPackets, List.mem_singleton] at hsp
    rw [hsp]
  · intro r hr
    rcases List.mem_map.mp hr with ⟨q, _, hq⟩
    rw [← hq]
    rfl

/-- Counterexample to C7: the file is not created on every run. On
`tDisjointB` the batched assembler raises the empty-accumulator
`KeyError` before reaching its write statement, so it returns no table
and performs no write at all, while the per-bundle assembler on the
same input does return and write (an empty table). -/
theorem output_written_alongside_counterexample :
    get_stereotriangulated_table camX pathX tDisjointB
        = Except.error "KeyError: point_id"
    ∧ get_stereotriangulated_table_original camX pathX tDisjointB
        = ([], [(["data", outName], [])]) :=
  ⟨rfl, rfl⟩

/-- C7 amended: the per-bundle assembler always returns its table and
performs exactly one write, of that same table, to
`stereotriangulated_points.csv` in the parent directory of the input
path; the batched assembler does the same on every run that returns —
its write effects are exactly that same single write of the returned
table — but a run that raises on the empty accumulator performs no
write. -/
theorem output_written_alongside (ca : CameraArray) (path : List String) (t : Table) :
    get_stereotriangulated_table_original ca path t
        = ((get_stereotriangulated_table_original ca path t).1,
            [(path.dropLast ++ [outName],
              (get_stereotriangulated_table_original ca path t).1)])
    ∧ ∀ res, get_stereotriangulated_table ca path t = Except.ok res →
        res.2 = [(path.dropLast ++ [outName], res.1)] := by
  constructor
  · rfl
  · intro res hres
    unfold get_stereotriangulated_table at hres
    cases hb : batchedRun ca t with
    | none => rw [hb] at hres; cases hres
    | some rows =>
      rw [hb] at hres
      cases hres
      rfl

/-! ### Flattening the accumulation loop -/

theorem accumulatePairs_cons (ca : CameraArray)
    (e : (Nat × Nat) × Option StereoPointsPacket)
    (es : List ((Nat × Nat) × Option StereoPointsPacket)) (acc : Option (List OutRow)) :
    accumulatePairs ca (e :: es) acc
      = accumulatePairs ca es
          (match e.2 with
           | none => acc
           | some sp =>
             match acc with
             | none => some (toTable ca sp)
             | some rows => some (rows ++ toTable ca sp)) := rfl

theorem accumulatePairs_getD (ca : CameraArray)
    (es : List ((Nat × Nat) × Option StereoPointsPacket)) (acc : Option (List OutRow)) :
    (accumulatePairs ca es acc).getD [] = acc.getD [] ++ es.flatMap (entryRows ca) := by
  induction es generalizing acc with
  | nil => simp [accumulatePairs]
  | cons e es ih =>
    rw [accumulatePairs_cons, ih, List.flatMap_cons, ← List.append_assoc]
    congr 1
    cases he : e.2 with
    | none => simp [entryRows, he]
    | some sp =>
      cases acc with
      | none => simp [entryRows, he]
      | some rows => simp [entryRows, he]

theorem accumulatePairs_all_none (ca : CameraArray)
    (es : List ((Nat × Nat) × Option StereoPointsPacket))
    (h : ∀ e ∈ es, e.2 = none) (acc : Option (List OutRow)) :
    accumulatePairs ca es acc = acc := by
  induction es generalizing acc with
  | nil => rfl
  | cons e es ih =>
    rw [accumulatePairs_cons]
    rw [h e (List.mem_cons_self e es)]
    exact ih (fun e2 he2 => h e2 (List.mem_cons_of_mem e he2)) acc

theorem foldl_accum_none (ca : CameraArray) (packets : List SyncPacket)
    (h : ∀ sp ∈ packets, ∀ e ∈ stereoPacketsAfterTri ca sp, e.2 = none) :
    packets.foldl (fun acc sp => accumulatePairs ca (stereoPacketsAfterTri ca sp) acc) none
      = none := by
  induction packets with
  | nil => rfl
  | cons sp ps ih =>
    rw [List.foldl_cons,
      accumulatePairs_all_none ca _ (h sp (List.mem_cons_self sp ps)) none]
    exact ih (fun sp2 hsp2 => h sp2 (List.mem_cons_of_mem sp hsp2))

/-- C6: a camera pair whose stereo points packet is null is silently
skipped by the accumulation loop of either assembler: the pair's entry
contributes zero rows, and the loop is a total function whose result is
the accumulator joined with the per-entry row contributions — no error
is raised for the null pair. -/
theorem null_pair_skipped (ca : CameraArray) (sync : SyncPacket) (ab : Nat × Nat)
    (hab : ab ∈ pairsOf ca.ports)
    (h : pairedPoints sync.sync_index sync.frame_packets ab.1 ab.2 = none) :
    (ab, (none : Option StereoPointsPacket)) ∈ stereoPacketsAfterTri ca sync
    ∧ entryRows ca (ab, none) = []
    ∧ ∀ acc, (accumulatePairs ca (stereoPacketsAfterTri ca sync) acc).getD []
        = acc.getD [] ++ (stereoPacketsAfterTri ca sync).flatMap (entryRows ca) := by
  refine ⟨?_, rfl, fun acc => accumulatePairs_getD ca _ acc⟩
  unfold stereoPacketsAfterTri
  rw [List.mem_map]
  refine ⟨ab, hab, ?_⟩
  rw [h]

/-- Witness for C6: ports 0 and 1 with no shared identifiers at sync 0. -/
theorem null_pair_skipped_witness :
    ((0, 1), (none : Option StereoPointsPacket))
        ∈ stereoPacketsAfterTri ⟨[0, 1], fun _ _ => true, fun _ _ _ _ => (0, 0, 0)⟩
            (syncPacketAt [0, 1] [⟨0, 0, 1, 10, 2, 1, 2, 0, 0⟩, ⟨0, 1, 2, 11, 3, 3, 4, 0, 0⟩] 0)
    ∧ entryRows ⟨[0, 1], fun _ _ => true, fun _ _ _ _ => (0, 0, 0)⟩ ((0, 1), none) = []
    ∧ ∀ acc,
        (accumulatePairs ⟨[0, 1], fun _ _ => true, fun _ _ _ _ => (0, 0, 0)⟩
            (stereoPacketsAfterTri ⟨[0, 1], fun _ _ => true, fun _ _ _ _ => (0, 0, 0)⟩
              (syncPacketAt [0, 1]
                [⟨0, 0, 1, 10, 2, 1, 2, 0, 0⟩, ⟨0, 1, 2, 11, 3, 3, 4, 0, 0⟩] 0))
            acc).getD []
          = acc.getD []
            ++ (stereoPacketsAfterTri ⟨[0, 1], fun _ _ => true, fun _ _ _ _ => (0, 0, 0)⟩
                (syncPacketAt [0, 1]
                  [⟨0, 0, 1, 10, 2, 1, 2, 0, 0⟩, ⟨0, 1, 2, 11, 3, 3, 4, 0, 0⟩] 0)).flatMap
                (entryRows ⟨[0, 1], fun _ _ => true, fun _ _ _ _ => (0, 0, 0)⟩) :=
  null_pair_skipped ⟨[0, 1], fun _ _ => true, fun _ _ _ _ => (0, 0, 0)⟩
    (syncPacketAt [0, 1] [⟨0, 0, 1, 10, 2, 1, 2, 0, 0⟩, ⟨0, 1, 2, 11, 3, 3, 4, 0, 0⟩] 0)
    (0, 1) (by decide) (by decide)

/-- C9: on an input where every camera pair's stereo points packet is
null in both modes, the per-bundle assembler returns and writes an empty
table while the batched assembler raises the `KeyError` it hits when
indexing the `point_id` column of the empty accumulator. -/
theorem empty_result_divergence (ca : CameraArray) (path : List String) (t : Table)
    (h1 : ∀ sp ∈ originalSyncPackets ca t, ∀ e ∈ stereoPacketsAfterTri ca sp, e.2 = none)
    (h2 : ∀ sp ∈ batchedSyncPackets ca t, ∀ e ∈ stereoPacketsAfterTri ca sp, e.2 = none) :
    get_stereotriangulated_table_original ca path t
        = ([], [(path.dropLast ++ [outName], [])])
    ∧ get_stereotriangulated_table ca path t = Except.error "KeyError: point_id" := by
  have horig : originalRun ca t = none := foldl_accum_none ca _ h1
  have hbat : batchedRun ca t = none := foldl_accum_none ca _ h2
  constructor
  · unfold get_stereotriangulated_table_original
    rw [horig]
    rfl
  · unfold get_stereotriangulated_table
    rw [hbat]

/-- Witness for C9: two cameras that never share a point identifier. -/
theorem empty_result_divergence_witness :
    get_stereotriangulated_table_original
        ⟨[0, 1], fun _ _ => true, fun _ _ la lb => (la.1 + lb.1, la.2 + lb.2, 0)⟩
        ["data", "points.csv"]
        [⟨0, 0, 1, 10, 2, 1, 2, 0, 0⟩, ⟨0, 1, 2, 11, 3, 3, 4, 0, 0⟩]
        = ([], [(["data", "points.csv"].dropLast ++ [outName], [])])
    ∧ get_stereotriangulated_table
        ⟨[0, 1], fun _ _ => true, fun _ _ la lb => (la.1 + lb.1, la.2 + lb.2, 0)⟩
        ["data", "points.csv"]
        [⟨0, 0, 1, 10, 2, 1, 2, 0, 0⟩, ⟨0, 1, 2, 11, 3, 3, 4, 0, 0⟩]
        = Except.error "KeyError: point_id" :=
  empty_result_divergence
    ⟨[0, 1], fun _ _ => true, fun _ _ la lb => (la.1 + lb.1, la.2 + lb.2, 0)⟩
    ["data", "points.csv"]
    [⟨0, 0, 1, 10, 2, 1, 2, 0, 0⟩, ⟨0, 1, 2, 11, 3, 3, 4, 0, 0⟩]
    (by decide) (by decide)

/-- Counterexample to C3: on `tCollide` the combined identifiers of the
two rows collide (`0 * 3 + 2 = 1 * 3 + (-1) = 2`), yet the batched
assembler raises no failure: it returns a table fabricating a
correspondence of point 2 at sync index 0 for pair `(0, 1)`, although
camera 1 has no detection with that sync index and identifier — and the
reference per-bundle assembler returns an empty table on the same
input. -/
theorem no_collision_guard_counterexample :
    get_stereotriangulated_table camX pathX tCollide
        = Except.ok ([⟨0, 1, 0, 2, 4, 6, 0⟩],
            [(["data", outName], [⟨0, 1, 0, 2, 4, 6, 0⟩])])
    ∧ tCollide.find? (fun r => r.port == 1 && r.sync_index == 0 && r.point_id == 2) = none
    ∧ get_stereotriangulated_table_original camX pathX tCollide
        = ([], [(["data", outName], [])]) :=
  ⟨rfl, rfl, rfl⟩

/-- C3 amended: the batched assembler performs no validation of the
identifier-encoding precondition — its only hard failure is the
`KeyError` raised on an empty accumulator, so an encoding collision is
never surfaced as a failure. -/
theorem no_validation_check (ca : CameraArray) (path : List String) (t : Table)
    (msg : String)
    (h : get_stereotriangulated_table ca path t = Except.error msg) :
    batchedRun ca t = none ∧ msg = "KeyError: point_id" := by
  unfold get_stereotriangulated_table at h
  cases hb : batchedRun ca t with
  | none =>
    rw [hb] at h
    exact ⟨rfl, (Except.error.injEq _ _).mp h.symm⟩
  | some rows =>
    rw [hb] at h
    cases h

/-- Witness for the amended C3 at the disjoint-identifier input, where
the batched assembler does fail — with the empty-accumulator
`KeyError`, not an encoding-validation error. -/
theorem no_validation_check_witness :
    batchedRun camX tDisjoint = none
    ∧ "KeyError: point_id" = "KeyError: point_id" :=
  no_validation_check camX pathX tDisjoint "KeyError: point_id" rfl

/-- Counterexample to C1: on `tDisjoint` no camera pair shares a point
identifier, the per-bundle assembler returns and writes an empty table,
and the batched assembler produces no output table at all — it raises
the `KeyError` on the empty accumulator — so the two modes do not
produce identical output tables on every input. -/
theorem mode_equivalence_counterexample :
    get_stereotriangulated_table_original camX pathX tDisjoint
        = ([], [(["data", outName], [])])
    ∧ get_stereotriangulated_table camX pathX tDisjoint
        = Except.error "KeyError: point_id" :=
  ⟨rfl, rfl⟩

/-- Witness for C7 at `tShared`, where the batched assembler succeeds. -/
theorem output_written_alongside_witness :
    get_stereotriangulated_table_original camX pathX tShared
        = ((get_stereotriangulated_table_original camX pathX tShared).1,
            [(pathX.dropLast ++ [outName],
              (get_stereotriangulated_table_original camX pathX tShared).1)])
    ∧ (([⟨0, 1, 0, 5, 4, 6, 0⟩], [(["data", outName], [⟨0, 1, 0, 5, 4, 6, 0⟩])])
          : List OutRow × List (List String × List OutRow)).2
        = [(pathX.dropLast ++ [outName],
            (([⟨0, 1, 0, 5, 4, 6, 0⟩], [(["data", outName], [⟨0, 1, 0, 5, 4, 6, 0⟩])])
                : List OutRow × List (List String × List OutRow)).1)] :=
  ⟨(output_written_alongside camX pathX tShared).1,
    (output_written_alongside camX pathX tShared).2
      ([⟨0, 1, 0, 5, 4, 6, 0⟩], [(["data", outName], [⟨0, 1, 0, 5, 4, 6, 0⟩])]) rfl⟩

/-! ### Frame metadata of the two modes -/

theorem portRows_remap (m : Int) (t : Table) (p : Nat) :
    portRows (remap m t) p = (portRows t p).map (encodeRow m) := by
  unfold portRows remap
  induction t with
  | nil => rfl
  | cons r rs ih =>
    have hport : (encodeRow m r).port = r.port := rfl
    simp only [List.map_cons, List.filter_cons, hport]
    cases h : r.port == p with
    | false => simpa [h] using ih
    | true => simpa [h] using ih

/-- C10: the per-bundle assembler builds each port's frame packet with
`frame_time` and `frame_index` from that port's first row at the given
sync index, while the batched assembler builds the single virtual frame
packet with `frame_index` hard-coded to `0` and `frame_time` from the
port's first row across the whole table; when the per-bundle
`frame_index` is non-zero the two frame packets are unequal. -/
theorem frame_metadata_divergence (ca : CameraArray) (t : Table) (p : Nat) (s : Int)
    (q r : Row) (qs rs : Table)
    (hp : p ∈ ca.ports)
    (hq : portRows (syncGroupRows t s) p = q :: qs)
    (hr : portRows t p = r :: rs)
    (hfi : q.frame_index ≠ 0) :
    ∃ fpO fpB,
      lookupFP (syncPacketAt ca.ports t s).frame_packets p = some fpO
      ∧ (∀ sp ∈ batchedSyncPackets ca t, lookupFP sp.frame_packets p = some fpB)
      ∧ fpO.frame_index = q.frame_index ∧ fpO.frame_time = q.frame_time
      ∧ fpB.frame_index = 0 ∧ fpB.frame_time = r.frame_time
      ∧ fpO ≠ fpB := by
  have hO : lookupFP (syncPacketAt ca.ports t s).frame_packets p
      = framePacketOfRows p (portRows (syncGroupRows t s) p) :=
    lookupFP_framePacketsFor ca.ports (syncGroupRows t s) p hp
  have hB : portRows (remap (maxPointId t + 1) t) p
      = encodeRow (maxPointId t + 1) r :: rs.map (encodeRow (maxPointId t + 1)) := by
    rw [portRows_remap, hr, List.map_cons]
  refine ⟨⟨p, q.frame_index, q.frame_time, pointPacketOfRows (q :: qs)⟩,
    ⟨p, 0, r.frame_time,
      pointPacketOfRows (encodeRow (maxPointId t + 1) r
        :: rs.map (encodeRow (maxPointId t + 1)))⟩, ?_, ?_, rfl, rfl, rfl, rfl, ?_⟩
  · rw [hO, hq]
    rfl
  · intro sp hsp
    simp only [batchedSyncPackets, List.mem_singleton] at hsp
    subst hsp
    have := lookupFP_framePacketsForBatched ca.ports (remap (maxPointId t + 1) t) p hp
    simpa [hB, framePacketOfRowsBatched] using this
  · intro hcontra
    have : q.frame_index = 0 := congrArg FramePacket.frame_index hcontra
    exact hfi this

/-- Witness for C10 at `tShared`, port 0, sync index 0: the per-bundle
frame packet carries `frame_index = 2`, the batched one `0`. -/
theorem frame_metadata_divergence_witness :
    ∃ fpO fpB,
      lookupFP (syncPacketAt camX.ports tShared 0).frame_packets 0 = some fpO
      ∧ (∀ sp ∈ batchedSyncPackets camX tShared, lookupFP sp.frame_packets 0 = some fpB)
      ∧ fpO.frame_index = (⟨0, 0, 5, 10, 2, 1, 2, 0, 0⟩ : Row).frame_index
      ∧ fpO.frame_time = (⟨0, 0, 5, 10, 2, 1, 2, 0, 0⟩ : Row).frame_time
      ∧ fpB.frame_index = 0
      ∧ fpB.frame_time = (⟨0, 0, 5, 10, 2, 1, 2, 0, 0⟩ : Row).frame_time
      ∧ fpO ≠ fpB :=
  frame_metadata_divergence camX tShared 0 0
    ⟨0, 0, 5, 10, 2, 1, 2, 0, 0⟩ ⟨0, 0, 5, 10, 2, 1, 2, 0, 0⟩ [] []
    (by decide) (by decide) (by decide) (by decide)

/-! ### Membership toolkit for the equivalence proof -/

theorem mem_insertSorted (x y : Int) (l : List Int) :
    x ∈ insertSorted y l ↔ x = y ∨ x ∈ l := by
  induction l with
  | nil => simp [insertSorted]
  | cons z zs ih =>
    unfold insertSorted
    by_cases h : y ≤ z
    · simp [h]
    · simp only [if_neg h, List.mem_cons, ih]
      tauto

theorem mem_sortInts (x : Int) (l : List Int) : x ∈ sortInts l ↔ x ∈ l := by
  induction l with
  | nil => simp [sortInts]
  | cons y ys ih =>
    unfold sortInts at *
    rw [List.foldr_cons, mem_insertSorted, ih, List.mem_cons]

theorem mem_uniqueSorted (x : Int) (l : List Int) : x ∈ uniqueSorted l ↔ x ∈ l := by
  rw [uniqueSorted, mem_sortInts, List.mem_dedup]

theorem mem_pairsOf (ports : List Nat) (a b : Nat) (h : (a, b) ∈ pairsOf ports) :
    a ∈ ports ∧ b ∈ ports := by
  induction ports with
  | nil => cases h
  | cons p rest ih =>
    unfold pairsOf at h
    rcases List.mem_append.mp h with h1 | h1
    · rcases List.mem_map.mp h1 with ⟨q, hq, heq⟩
      injection heq with h2 h3
      subst h2; subst h3
      exact ⟨List.mem_cons_self _ _, List.mem_cons_of_mem _ hq⟩
    · exact ⟨List.mem_cons_of_mem _ (ih h1).1, List.mem_cons_of_mem _ (ih h1).2⟩

theorem originalRun_getD (ca : CameraArray) (t : Table) :
    (originalRun ca t).getD []
      = (originalSyncPackets ca t).flatMap
          (fun sp => (stereoPacketsAfterTri ca sp).flatMap (entryRows ca)) := by
  unfold originalRun
  generalize originalSyncPackets ca t = ps
  suffices h : ∀ acc : Option (List OutRow),
      (ps.foldl (fun acc sp => accumulatePairs ca (stereoPacketsAfterTri ca sp) acc)
        acc).getD []
        = acc.getD []
          ++ ps.flatMap (fun sp => (stereoPacketsAfterTri ca sp).flatMap (entryRows ca)) by
    simpa using h none
  induction ps with
  | nil => intro acc; simp
  | cons sp ps ih =>
    intro acc
    rw [List.foldl_cons, ih, accumulatePairs_getD, List.flatMap_cons, List.append_assoc]

theorem batchedRun_getD (ca : CameraArray) (t : Table) :
    (batchedRun ca t).getD []
      = (stereoPacketsAfterTri ca
          ⟨0, framePacketsForBatched ca.ports (remap (maxPointId t + 1) t)⟩).flatMap
          (entryRows ca) := by
  unfold batchedRun batchedSyncPackets
  rw [List.foldl_cons, List.foldl_nil, accumulatePairs_getD]
  rfl

theorem mem_pairRows (ca : CameraArray) (sync : SyncPacket) (row : OutRow) :
    row ∈ (stereoPacketsAfterTri ca sync).flatMap (entryRows ca)
      ↔ ∃ ab, ab ∈ pairsOf ca.ports ∧ ca.geoAvail ab.1 ab.2 = true
          ∧ ∃ sp, pairedPoints sync.sync_index sync.frame_packets ab.1 ab.2 = some sp
              ∧ row ∈ toTable ca sp := by
  rw [List.mem_flatMap]
  constructor
  · rintro ⟨e, he, hrow⟩
    unfold stereoPacketsAfterTri at he
    rcases List.mem_map.mp he with ⟨ab, hab, heq⟩
    subst heq
    cases hpp : pairedPoints sync.sync_index sync.frame_packets ab.1 ab.2 with
    | none =>
      rw [hpp] at hrow
      cases hrow
    | some sp =>
      rw [hpp] at hrow
      cases hgeo : ca.geoAvail ab.1 ab.2 with
      | false =>
        rw [hgeo] at hrow
        simp only [Bool.false_eq_true, if_false, entryRows] at hrow
        exact absurd hrow (List.not_mem_nil row)
      | true =>
        rw [hgeo] at hrow
        simp only [if_true, entryRows] at hrow
        exact ⟨ab, hab, hgeo, sp, hpp, hrow⟩
  · rintro ⟨ab, hab, hgeo, sp, hsp, hrow⟩
    refine ⟨(ab, some sp), ?_, hrow⟩
    unfold stereoPacketsAfterTri
    rw [List.mem_map]
    refine ⟨ab, hab, ?_⟩
    rw [hsp, hgeo]
    simp

theorem zip_self_maps (l : List Int) (f g : Int → Int × Int) :
    l.zip ((l.map f).zip (l.map g)) = l.map (fun x => (x, f x, g x)) := by
  induction l with
  | nil => rfl
  | cons x xs ih => simp [ih]

theorem pairedPoints_eq_some (s : Int) (fps : List (Nat × Option FramePacket)) (a b : Nat)
    (fa fb : FramePacket)
    (hfa : lookupFP fps a = some fa) (hfb : lookupFP fps b = some fb) :
    pairedPoints s fps a b
      = if (commonIds fa.points fb.points).isEmpty then none
        else
          some { sync_index := s
                 portA := a
                 portB := b
                 point_id := commonIds fa.points fb.points
                 locA := (commonIds fa.points fb.points).map
                   (fun id => (lookupImgLoc fa.points id).getD (0, 0))
                 locB := (commonIds fa.points fb.points).map
                   (fun id => (lookupImgLoc fb.points id).getD (0, 0)) } := by
  unfold pairedPoints
  rw [hfa, hfb]

theorem toTable_pairedPoints (ca : CameraArray) (s : Int) (a b : Nat)
    (fa fb : PointPacket) :
    toTable ca
        { sync_index := s
          portA := a
          portB := b
          point_id := commonIds fa fb
          locA := (commonIds fa fb).map (fun id => (lookupImgLoc fa id).getD (0, 0))
          locB := (commonIds fa fb).map (fun id => (lookupImgLoc fb id).getD (0, 0)) }
      = (commonIds fa fb).map (outRowOf ca a b s fa fb) := by
  unfold toTable
  rw [zip_self_maps, List.map_map]
  rfl

theorem pair_contrib_iff (ca : CameraArray) (s : Int)
    (fps : List (Nat × Option FramePacket)) (a b : Nat) (row : OutRow) :
    (∃ sp, pairedPoints s fps a b = some sp ∧ row ∈ toTable ca sp)
      ↔ ∃ fa fb, lookupFP fps a = some fa ∧ lookupFP fps b = some fb
          ∧ ∃ id, id ∈ commonIds fa.points fb.points
              ∧ row = outRowOf ca a b s fa.points fb.points id := by
  cases hfa : lookupFP fps a with
  | none =>
    constructor
    · rintro ⟨sp, hsp, _⟩
      unfold pairedPoints at hsp
      rw [hfa] at hsp
      cases hlb : lookupFP fps b <;> rw [hlb] at hsp <;> cases hsp
    · rintro ⟨fa, fb, hfa2, _, _⟩
      cases hfa2
  | some fa =>
    cases hfb : lookupFP fps b with
    | none =>
      constructor
      · rintro ⟨sp, hsp, _⟩
        unfold pairedPoints at hsp
        rw [hfa, hfb] at hsp
        cases hsp
      · rintro ⟨fa2, fb2, _, hfb2, _⟩
        cases hfb2
    | some fb =>
      rw [pairedPoints_eq_some s fps a b fa fb hfa hfb]
      by_cases hnil : commonIds fa.points fb.points = []
      · constructor
        · rintro ⟨sp, hsp, _⟩
          rw [hnil] at hsp
          simp at hsp
        · rintro ⟨fa2, fb2, hfa2, hfb2, id, hid, _⟩
          injection hfa2 with h2
          injection hfb2 with h3
          subst h2
          subst h3
          rw [hnil] at hid
          exact absurd hid (List.not_mem_nil id)
      · have hempty : (commonIds fa.points fb.points).isEmpty = false :=
          List.isEmpty_eq_false.mpr hnil
        rw [hempty]
        simp only [Bool.false_eq_true, if_false]
        constructor
        · rintro ⟨sp, hsp, hrow⟩
          injection hsp with hsp2
          rw [← hsp2, toTable_pairedPoints] at hrow
          rcases List.mem_map.mp hrow with ⟨id, hid, heq⟩
          exact ⟨fa, fb, rfl, rfl, id, hid, heq.symm⟩
        · rintro ⟨fa2, fb2, hfa2, hfb2, id, hid, heq⟩
          injection hfa2 with h2
          injection hfb2 with h3
          subst h2
          subst h3
          refine ⟨_, rfl, ?_⟩
          rw [toTable_pairedPoints]
          exact List.mem_map.mpr ⟨id, hid, heq.symm⟩

theorem find?_filter_and {α : Type} (l : List α) (p q : α → Bool) :
    (l.filter p).find? q = l.find? (fun x => p x && q x) := by
  induction l with
  | nil => rfl
  | cons x xs ih =>
    cases hp : p x with
    | false => simp [List.filter_cons, hp, List.find?_cons, ih]
    | true =>
      cases hq : q x with
      | false => simp [List.filter_cons, hp, List.find?_cons, hq, ih]
      | true => simp [List.filter_cons, hp, List.find?_cons, hq]

theorem find?_congr_mem {α : Type} (l : List α) (p q : α → Bool)
    (h : ∀ x ∈ l, p x = q x) : l.find? p = l.find? q := by
  induction l with
  | nil => rfl
  | cons x xs ih =>
    have hx := h x (List.mem_cons_self x xs)
    cases hqx : q x with
    | true =>
      rw [List.find?_cons_of_pos _ (hx.trans hqx), List.find?_cons_of_pos _ hqx]
    | false =>
      rw [List.find?_cons_of_neg _ (by rw [hx, hqx]; exact Bool.false_ne_true),
        List.find?_cons_of_neg _ (by rw [hqx]; exact Bool.false_ne_true)]
      exact ih (fun y hy => h y (List.mem_cons_of_mem x hy))

theorem lookupImgLoc_rows (rows : Table) (id : Int) :
    lookupImgLoc (pointPacketOfRows rows) id
      = (rows.find? (fun r => r.point_id == id)).map
          (fun r => (r.img_loc_x, r.img_loc_y)) := by
  unfold lookupImgLoc pointPacketOfRows
  rw [List.zip_map', List.find?_map, Option.map_map]
  rfl

theorem mem_portRows (t : Table) (p : Nat) (r : Row) :
    r ∈ portRows t p ↔ r ∈ t ∧ r.port = p := by
  simp [portRows, List.mem_filter]

theorem mem_portRows_syncGroup (t : Table) (s : Int) (p : Nat) (r : Row) :
    r ∈ portRows (syncGroupRows t s) p ↔ r ∈ t ∧ r.sync_index = s ∧ r.port = p := by
  simp only [portRows, syncGroupRows, List.mem_filter, beq_iff_eq]
  tauto

theorem mem_commonIds_rows (rowsA rowsB : Table) (id : Int) :
    id ∈ commonIds (pointPacketOfRows rowsA) (pointPacketOfRows rowsB)
      ↔ (∃ r ∈ rowsA, r.point_id = id) ∧ (∃ r ∈ rowsB, r.point_id = id) := by
  unfold commonIds pointPacketOfRows
  simp only [List.mem_filter, List.mem_map, List.contains_iff_exists_mem_beq, beq_iff_eq]
  constructor
  · rintro ⟨⟨r, hr, hrid⟩, id2, ⟨r2, hr2, hr2id⟩, hide⟩
    refine ⟨⟨r, hr, hrid⟩, r2, hr2, ?_⟩
    rw [hr2id, ← hide]
  · rintro ⟨⟨r, hr, hrid⟩, r2, hr2, hr2id⟩
    exact ⟨⟨r, hr, hrid⟩, r2.point_id, ⟨r2, hr2, rfl⟩, hr2id.symm⟩

theorem framePacketOfRows_some (p : Nat) (rows : Table) (fp : FramePacket)
    (h : framePacketOfRows p rows = some fp) :
    fp.points = pointPacketOfRows rows ∧ rows ≠ [] := by
  cases rows with
  | nil => cases h
  | cons r rs =>
    injection h with h2
    rw [← h2]
    exact ⟨rfl, by simp⟩

theorem framePacketOfRows_of_ne (p : Nat) (rows : Table) (h : rows ≠ []) :
    ∃ fp, framePacketOfRows p rows = some fp ∧ fp.points = pointPacketOfRows rows := by
  cases rows with
  | nil => exact absurd rfl h
  | cons r rs => exact ⟨_, rfl, rfl⟩

theorem framePacketOfRowsBatched_some (p : Nat) (rows : Table) (fp : FramePacket)
    (h : framePacketOfRowsBatched p rows = some fp) :
    fp.points = pointPacketOfRows rows ∧ rows ≠ [] := by
  cases rows with
  | nil => cases h
  | cons r rs =>
    injection h with h2
    rw [← h2]
    exact ⟨rfl, by simp⟩

theorem framePacketOfRowsBatched_of_ne (p : Nat) (rows : Table) (h : rows ≠ []) :
    ∃ fp, framePacketOfRowsBatched p rows = some fp
      ∧ fp.points = pointPacketOfRows rows := by
  cases rows with
  | nil => exact absurd rfl h
  | cons r rs => exact ⟨_, rfl, rfl⟩

theorem imgLoc_orig (t : Table) (a : Nat) (s : Int) (id : Int) :
    (lookupImgLoc (pointPacketOfRows (portRows (syncGroupRows t s) a)) id).getD (0, 0)
      = imgAt t a s id := by
  rw [lookupImgLoc_rows]
  unfold imgAt portRows syncGroupRows
  rw [find?_filter_and, find?_filter_and]
  rw [find?_congr_mem t
    (fun r => (r.sync_index == s) && (r.port == a && r.point_id == id))
    (fun r => r.port == a && (r.sync_index == s && r.point_id == id))
    (fun r _ => by
      simp only []
      cases r.sync_index == s <;> cases r.port == a <;> cases r.point_id == id <;> rfl)]

theorem imgLoc_batched (t : Table) (m : Int) (a : Nat) (s : Int) (id : Int)
    (hpid : ∀ r ∈ t, 0 ≤ r.point_id ∧ r.point_id < m)
    (hid0 : 0 ≤ id) (hidm : id < m) :
    (lookupImgLoc (pointPacketOfRows (portRows (remap m t) a))
        (encodePointId m s id)).getD (0, 0)
      = imgAt t a s id := by
  rw [portRows_remap, lookupImgLoc_rows, List.find?_map, Option.map_map]
  unfold portRows
  rw [find?_filter_and]
  simp only [Function.comp]
  unfold imgAt
  rw [find?_congr_mem t
    (fun r => r.port == a && ((encodeRow m r).point_id == encodePointId m s id))
    (fun r => r.port == a && (r.sync_index == s && r.point_id == id))
    (fun r hr => by
      simp only []
      have hb := hpid r hr
      have hlhs : (encodeRow m r).point_id = encodePointId m r.sync_index r.point_id := rfl
      by_cases h1 : r.sync_index = s
      · by_cases h2 : r.point_id = id
        · rw [hlhs, h1, h2]
          simp
        · have hne : encodePointId m r.sync_index r.point_id ≠ encodePointId m s id := by
            intro he
            exact h2 (encodePointId_inj m _ _ _ _ hb.1 hb.2 hid0 hidm he).2
          rw [hlhs, beq_eq_false_iff_ne.mpr hne, beq_eq_false_iff_ne.mpr h2]
          cases r.port == a <;> cases r.sync_index == s <;> rfl
      · have hne : encodePointId m r.sync_index r.point_id ≠ encodePointId m s id := by
          intro he
          exact h1 (encodePointId_inj m _ _ _ _ hb.1 hb.2 hid0 hidm he).1
        rw [hlhs, beq_eq_false_iff_ne.mpr hne, beq_eq_false_iff_ne.mpr h1]
        cases r.port == a <;> cases r.point_id == id <;> rfl)]
  rfl

theorem outRowOf_orig (ca : CameraArray) (t : Table) (a b : Nat) (s : Int) (id : Int) :
    outRowOf ca a b s (pointPacketOfRows (portRows (syncGroupRows t s) a))
        (pointPacketOfRows (portRows (syncGroupRows t s) b)) id
      = { port_A := a
          port_B := b
          sync_index := s
          point_id := id
          x := (ca.tri a b (imgAt t a s id) (imgAt t b s id)).1
          y := (ca.tri a b (imgAt t a s id) (imgAt t b s id)).2.1
          z := (ca.tri a b (imgAt t a s id) (imgAt t b s id)).2.2 } := by
  unfold outRowOf
  rw [imgLoc_orig, imgLoc_orig]

theorem decode_outRowOf_batched (ca : CameraArray) (t : Table) (m : Int)
    (a b : Nat) (s : Int) (id : Int)
    (hpid : ∀ r ∈ t, 0 ≤ r.point_id ∧ r.point_id < m)
    (hid0 : 0 ≤ id) (hidm : id < m) :
    decodeRow m (outRowOf ca a b 0 (pointPacketOfRows (portRows (remap m t) a))
        (pointPacketOfRows (portRows (remap m t) b)) (encodePointId m s id))
      = { port_A := a
          port_B := b
          sync_index := s
          point_id := id
          x := (ca.tri a b (imgAt t a s id) (imgAt t b s id)).1
          y := (ca.tri a b (imgAt t a s id) (imgAt t b s id)).2.1
          z := (ca.tri a b (imgAt t a s id) (imgAt t b s id)).2.2 } := by
  unfold decodeRow outRowOf decodeSyncIndex decodePointId
  rw [imgLoc_batched t m a s id hpid hid0 hidm, imgLoc_batched t m b s id hpid hid0 hidm]
  simp only [fdiv_encodePointId m s id hid0 hidm, fmod_encodePointId m s id hid0 hidm]

theorem mem_origOutput (ca : CameraArray) (t : Table) (row : OutRow) :
    row ∈ (originalRun ca t).getD [] ↔ triRowSpec ca t row := by
  rw [originalRun_getD, List.mem_flatMap]
  constructor
  · rintro ⟨sync, hsync, hrow⟩
    unfold originalSyncPackets at hsync
    rcases List.mem_map.mp hsync with ⟨s, hs, hsync2⟩
    subst hsync2
    rw [mem_pairRows] at hrow
    rcases hrow with ⟨⟨a, b⟩, hab, hgeo, sp, hsp, hrowt⟩
    have hports := mem_pairsOf ca.ports a b hab
    have hsp2 : pairedPoints s (framePacketsFor ca.ports (syncGroupRows t s)) a b
        = some sp := hsp
    have hcontrib := (pair_contrib_iff ca s
      (framePacketsFor ca.ports (syncGroupRows t s)) a b row).mp ⟨sp, hsp2, hrowt⟩
    rcases hcontrib with ⟨fa, fb, hfa, hfb, id, hid, hroweq⟩
    rw [lookupFP_framePacketsFor ca.ports _ a hports.1] at hfa
    rw [lookupFP_framePacketsFor ca.ports _ b hports.2] at hfb
    have hfaP := (framePacketOfRows_some a _ fa hfa).1
    have hfbP := (framePacketOfRows_some b _ fb hfb).1
    rw [hfaP, hfbP, mem_commonIds_rows] at hid
    rcases hid with ⟨⟨ra, hra, hraid⟩, ⟨rb, hrb, hrbid⟩⟩
    rw [mem_portRows_syncGroup] at hra hrb
    refine ⟨a, b, s, id, hab, hgeo, ?_, ?_, ?_⟩
    · exact ⟨ra, hra.1, hra.2.2, hra.2.1, hraid⟩
    · exact ⟨rb, hrb.1, hrb.2.2, hrb.2.1, hrbid⟩
    · rw [hroweq, hfaP, hfbP, outRowOf_orig]
  · rintro ⟨a, b, s, id, hab, hgeo, ⟨ra, hra, hrap, hras, hraid⟩,
      ⟨rb, hrb, hrbp, hrbs, hrbid⟩, hroweq⟩
    have hports := mem_pairsOf ca.ports a b hab
    have hsmem : s ∈ uniqueSorted (t.map (·.sync_index)) := by
      rw [mem_uniqueSorted]
      exact List.mem_map.mpr ⟨ra, hra, hras⟩
    have hraMem : ra ∈ portRows (syncGroupRows t s) a :=
      (mem_portRows_syncGroup t s a ra).mpr ⟨hra, hras, hrap⟩
    have hrbMem : rb ∈ portRows (syncGroupRows t s) b :=
      (mem_portRows_syncGroup t s b rb).mpr ⟨hrb, hrbs, hrbp⟩
    have hAne : portRows (syncGroupRows t s) a ≠ [] := by
      intro h0
      rw [h0] at hraMem
      exact absurd hraMem (List.not_mem_nil ra)
    have hBne : portRows (syncGroupRows t s) b ≠ [] := by
      intro h0
      rw [h0] at hrbMem
      exact absurd hrbMem (List.not_mem_nil rb)
    rcases framePacketOfRows_of_ne a _ hAne with ⟨fa, hfa, hfaP⟩
    rcases framePacketOfRows_of_ne b _ hBne with ⟨fb, hfb, hfbP⟩
    refine ⟨syncPacketAt ca.ports t s, ?_, ?_⟩
    · unfold originalSyncPackets
      exact List.mem_map.mpr ⟨s, hsmem, rfl⟩
    · rw [mem_pairRows]
      refine ⟨(a, b), hab, hgeo, ?_⟩
      apply (pair_contrib_iff ca s
        (framePacketsFor ca.ports (syncGroupRows t s)) a b row).mpr
      refine ⟨fa, fb, ?_, ?_, id, ?_, ?_⟩
      · rw [lookupFP_framePacketsFor ca.ports _ a hports.1]
        exact hfa
      · rw [lookupFP_framePacketsFor ca.ports _ b hports.2]
        exact hfb
      · rw [hfaP, hfbP, mem_commonIds_rows]
        exact ⟨⟨ra, hraMem, hraid⟩, ⟨rb, hrbMem, hrbid⟩⟩
      · rw [hroweq, hfaP, hfbP, outRowOf_orig]

theorem mem_batchedDecoded (ca : CameraArray) (t : Table) (row : OutRow)
    (hpid : ∀ r ∈ t, 0 ≤ r.point_id) :
    row ∈ ((batchedRun ca t).getD []).map (decodeRow (maxPointId t + 1))
      ↔ triRowSpec ca t row := by
  have hbound : ∀ r ∈ t, 0 ≤ r.point_id ∧ r.point_id < maxPointId t + 1 := by
    intro r hr
    have := le_maxPointId t r hr
    exact ⟨hpid r hr, by omega⟩
  rw [batchedRun_getD, List.mem_map]
  constructor
  · rintro ⟨braw, hbraw, hdec⟩
    rw [mem_pairRows] at hbraw
    rcases hbraw with ⟨⟨a, b⟩, hab, hgeo, sp, hsp, hrowt⟩
    have hports := mem_pairsOf ca.ports a b hab
    have hsp2 : pairedPoints 0
        (framePacketsForBatched ca.ports (remap (maxPointId t + 1) t)) a b
        = some sp := hsp
    have hcontrib := (pair_contrib_iff ca 0
      (framePacketsForBatched ca.ports (remap (maxPointId t + 1) t)) a b braw).mp
      ⟨sp, hsp2, hrowt⟩
    rcases hcontrib with ⟨fa, fb, hfa, hfb, e, he, hroweq⟩
    rw [lookupFP_framePacketsForBatched ca.ports _ a hports.1] at hfa
    rw [lookupFP_framePacketsForBatched ca.ports _ b hports.2] at hfb
    have hfaP := (framePacketOfRowsBatched_some a _ fa hfa).1
    have hfbP := (framePacketOfRowsBatched_some b _ fb hfb).1
    rw [hfaP, hfbP, mem_commonIds_rows] at he
    rcases he with ⟨⟨ra2, hra2, hra2id⟩, ⟨rb2, hrb2, hrb2id⟩⟩
    rw [portRows_remap] at hra2 hrb2
    rcases List.mem_map.mp hra2 with ⟨ra, hraP, hraE⟩
    rcases List.mem_map.mp hrb2 with ⟨rb, hrbP, hrbE⟩
    rw [mem_portRows] at hraP hrbP
    have hraEnc : encodePointId (maxPointId t + 1) ra.sync_index ra.point_id = e := by
      have h1 : (encodeRow (maxPointId t + 1) ra).point_id
          = encodePointId (maxPointId t + 1) ra.sync_index ra.point_id := rfl
      rw [← h1, hraE, hra2id]
    have hrbEnc : encodePointId (maxPointId t + 1) rb.sync_index rb.point_id = e := by
      have h1 : (encodeRow (maxPointId t + 1) rb).point_id
          = encodePointId (maxPointId t + 1) rb.sync_index rb.point_id := rfl
      rw [← h1, hrbE, hrb2id]
    have hinj := encodePointId_inj (maxPointId t + 1)
      rb.sync_index rb.point_id ra.sync_index ra.point_id
      (hbound rb hrbP.1).1 (hbound rb hrbP.1).2
      (hbound ra hraP.1).1 (hbound ra hraP.1).2
      (hrbEnc.trans hraEnc.symm)
    refine ⟨a, b, ra.sync_index, ra.point_id, hab, hgeo, ?_, ?_, ?_⟩
    · exact ⟨ra, hraP.1, hraP.2, rfl, rfl⟩
    · exact ⟨rb, hrbP.1, hrbP.2, hinj.1, hinj.2⟩
    · rw [← hdec, hroweq, hfaP, hfbP, ← hraEnc,
        decode_outRowOf_batched ca t (maxPointId t + 1) a b ra.sync_index ra.point_id
          hbound (hbound ra hraP.1).1 (hbound ra hraP.1).2]
  · rintro ⟨a, b, s, id, hab, hgeo, ⟨ra, hra, hrap, hras, hraid⟩,
      ⟨rb, hrb, hrbp, hrbs, hrbid⟩, hroweq⟩
    have hports := mem_pairsOf ca.ports a b hab
    have hid0 : 0 ≤ id := by
      rw [← hraid]
      exact (hbound ra hra).1
    have hidm : id < maxPointId t + 1 := by
      rw [← hraid]
      exact (hbound ra hra).2
    have hraMem : encodeRow (maxPointId t + 1) ra
        ∈ portRows (remap (maxPointId t + 1) t) a := by
      rw [portRows_remap]
      exact List.mem_map.mpr ⟨ra, (mem_portRows t a ra).mpr ⟨hra, hrap⟩, rfl⟩
    have hrbMem : encodeRow (maxPointId t + 1) rb
        ∈ portRows (remap (maxPointId t + 1) t) b := by
      rw [portRows_remap]
      exact List.mem_map.mpr ⟨rb, (mem_portRows t b rb).mpr ⟨hrb, hrbp⟩, rfl⟩
    have hAne : portRows (remap (maxPointId t + 1) t) a ≠ [] := by
      intro h0
      rw [h0] at hraMem
      exact absurd hraMem (List.not_mem_nil _)
    have hBne : portRows (remap (maxPointId t + 1) t) b ≠ [] := by
      intro h0
      rw [h0] at hrbMem
      exact absurd hrbMem (List.not_mem_nil _)
    rcases framePacketOfRowsBatched_of_ne a _ hAne with ⟨fa, hfa, hfaP⟩
    rcases framePacketOfRowsBatched_of_ne b _ hBne with ⟨fb, hfb, hfbP⟩
    refine ⟨outRowOf ca a b 0 fa.points fb.points (encodePointId (maxPointId t + 1) s id),
      ?_, ?_⟩
    · rw [mem_pairRows]
      refine ⟨(a, b), hab, hgeo, ?_⟩
      apply (pair_contrib_iff ca 0
        (framePacketsForBatched ca.ports (remap (maxPointId t + 1) t)) a b _).mpr
      refine ⟨fa, fb, ?_, ?_, encodePointId (maxPointId t + 1) s id, ?_, rfl⟩
      · rw [lookupFP_framePacketsForBatched ca.ports _ a hports.1]
        exact hfa
      · rw [lookupFP_framePacketsForBatched ca.ports _ b hports.2]
        exact hfb
      · rw [hfaP, hfbP, mem_commonIds_rows]
        constructor
        · refine ⟨encodeRow (maxPointId t + 1) ra, hraMem, ?_⟩
          have h1 : (encodeRow (maxPointId t + 1) ra).point_id
              = encodePointId (maxPointId t + 1) ra.sync_index ra.point_id := rfl
          rw [h1, hras, hraid]
        · refine ⟨encodeRow (maxPointId t + 1) rb, hrbMem, ?_⟩
          have h1 : (encodeRow (maxPointId t + 1) rb).point_id
              = encodePointId (maxPointId t + 1) rb.sync_index rb.point_id := rfl
          rw [h1, hrbs, hrbid]
    · rw [hfaP, hfbP,
        decode_outRowOf_batched ca t (maxPointId t + 1) a b s id hbound hid0 hidm]
      exact hroweq.symm

/-- C1 amended: for every input table whose point identifiers are
non-negative, whenever at least one camera pair produces a stereo points
packet in the batched pass (so the batched assembler returns rather than
raising on its empty accumulator), the batched assembler succeeds with
some output table and the two assemblers report exactly the same rows
modulo ordering: a row — camera pair, sync index, point identifier and
triangulated coordinate, after the batched mode's identifier decoding —
belongs to the per-bundle output precisely when it belongs to the
batched output. -/
theorem mode_equivalence_amended (ca : CameraArray) (path : List String) (t : Table)
    (hpid : ∀ r ∈ t, 0 ≤ r.point_id)
    (hne : batchedRun ca t ≠ none) :
    ∃ rowsB : List OutRow,
      get_stereotriangulated_table ca path t
          = Except.ok (rowsB, [(path.dropLast ++ [outName], rowsB)])
      ∧ ∀ row, row ∈ (get_stereotriangulated_table_original ca path t).1
          ↔ row ∈ rowsB := by
  cases hb : batchedRun ca t with
  | none => exact absurd hb hne
  | some rows =>
    refine ⟨rows.map (decodeRow (maxPointId t + 1)), ?_, ?_⟩
    · unfold get_stereotriangulated_table
      rw [hb]
    · intro row
      have h1 : (get_stereotriangulated_table_original ca path t).1
          = (originalRun ca t).getD [] := rfl
      have h2 : rows.map (decodeRow (maxPointId t + 1))
          = ((batchedRun ca t).getD []).map (decodeRow (maxPointId t + 1)) := by
        rw [hb]
        rfl
      rw [h1, h2, mem_origOutput, mem_batchedDecoded ca t row hpid]

/-- Witness for the amended C1 at `tShared`, where pair `(0, 1)` shares
point 5 at sync index 0 and both assemblers produce that one row. -/
theorem mode_equivalence_amended_witness :
    ∃ rowsB : List OutRow,
      get_stereotriangulated_table camX pathX tShared
          = Except.ok (rowsB, [(pathX.dropLast ++ [outName], rowsB)])
      ∧ ∀ row, row ∈ (get_stereotriangulated_table_original camX pathX tShared).1
          ↔ row ∈ rowsB :=
  mode_equivalence_amended camX pathX tShared (by decide) (by decide)

end Caliscope
